import Mathlib

/-
  Verification of the serial-monitor framing pipeline (`src/serial_monitor.py`).

  Bytes are modelled as natural numbers: iterating a Python `bytes` object
  yields the integers 0..255, and the stored delimiter is the integer
  `int.from_bytes(delimeter, byteorder="little")`, so all comparisons in the
  byte loop are integer comparisons.  The mutable object state of a
  `SerialPipeline` is an explicit record threaded through the functions below;
  the `UnicodeDecodeError` that `self.cache.decode('utf-8')` can raise in
  verbose mode is modelled with `Except`, the error value carrying the object
  state at the moment the exception propagates.
-/

namespace SerialMonitor

/-- Python `int.from_bytes(bs, byteorder="little")`: the head of the list is the
least-significant byte, and the empty byte string denotes `0`. -/
def intFromBytes : List Nat → Nat
  | [] => 0
  | b :: rest => b + 256 * intFromBytes rest

/-- The state of one `SerialPipeline` object: its identifying fields set by
`__init__`, the growable byte buffer `cache`, the list `lines` of completed
records, and whether the underlying serial port is open. -/
@[ext]
structure SerialPipeline where
  port_name : String
  baud_rate : Nat
  delimeter : Nat
  verbose : Bool
  cache : List Nat
  lines : List (List Nat)
  portOpen : Bool
deriving DecidableEq

/-- Constructor `SerialPipeline.__init__` after a successful `serial.Serial` open: stores
the port name, the baud rate, `int.from_bytes(delimeter, "little")` and the
verbose flag, and starts with an empty cache and an empty record list. -/
def SerialPipeline.init (port_name : String) (baud_rate : Nat)
    (delimeter : List Nat) (verbose : Bool) : SerialPipeline :=
  { port_name := port_name
    baud_rate := baud_rate
    delimeter := intFromBytes delimeter
    verbose := verbose
    cache := []
    lines := []
    portOpen := true }

/-- A UTF-8 continuation byte, `0x80 .. 0xBF`. -/
def utf8Cont (b : Nat) : Bool := 128 ≤ b && b ≤ 191

/-- Strict UTF-8 validity of a byte sequence, as checked by CPython's
`bytes.decode('utf-8')`: ASCII bytes stand alone; `0xC2..0xDF` take one
continuation byte; `0xE0..0xEF` take two (with the restricted first
continuation ranges that exclude overlong forms and surrogates); `0xF0..0xF4`
take three (with the restricted ranges that exclude overlong forms and code
points above `U+10FFFF`); everything else is invalid. -/
def utf8Valid : List Nat → Bool
  | [] => true
  | b :: rest =>
    if b ≤ 127 then utf8Valid rest
    else if 194 ≤ b && b ≤ 223 then
      match rest with
      | c1 :: r => utf8Cont c1 && utf8Valid r
      | [] => false
    else if 224 ≤ b && b ≤ 239 then
      match rest with
      | c1 :: c2 :: r =>
        (if b == 224 then 160 ≤ c1 && c1 ≤ 191
         else if b == 237 then 128 ≤ c1 && c1 ≤ 159
         else utf8Cont c1) && utf8Cont c2 && utf8Valid r
      | _ => false
    else if 240 ≤ b && b ≤ 244 then
      match rest with
      | c1 :: c2 :: c3 :: r =>
        (if b == 240 then 144 ≤ c1 && c1 ≤ 191
         else if b == 244 then 128 ≤ c1 && c1 ≤ 143
         else utf8Cont c1) && utf8Cont c2 && utf8Cont c3 && utf8Valid r
      | _ => false
    else false

/-- One iteration of the byte loop of `SerialPipeline.update`, ignoring console
output: on the delimiter, append `bytes(self.cache)` (an immutable copy,
modelled by capturing the current value) to `lines` and reset the cache;
otherwise append the byte to the cache. -/
def step (st : SerialPipeline) (b : Nat) : SerialPipeline :=
  if b = st.delimeter then
    { st with lines := st.lines ++ [st.cache], cache := [] }
  else
    { st with cache := st.cache ++ [b] }

/-- One iteration of the byte loop, with the failure mode of verbose mode: on
the delimiter, `print(self.port_name + ": " + self.cache.decode('utf-8'))` runs
BEFORE `self.lines.append(...)`, so if `verbose` is set and the cache is not
valid UTF-8 a `UnicodeDecodeError` propagates with the object state unchanged
by this iteration. -/
def stepE (st : SerialPipeline) (b : Nat) : Except SerialPipeline SerialPipeline :=
  if b = st.delimeter ∧ st.verbose = true ∧ utf8Valid st.cache = false then
    Except.error st
  else Except.ok (step st b)

/-- The `for data_byte in data` loop of `SerialPipeline.update`: bytes are
processed one at a time in arrival order, and an exception aborts the rest of
the loop. -/
def updateBytes : SerialPipeline → List Nat → Except SerialPipeline SerialPipeline
  | st, [] => Except.ok st
  | st, b :: rest =>
    match stepE st b with
    | Except.error e => Except.error e
    | Except.ok st2 => updateBytes st2 rest

/-- One call of `SerialPipeline.update` (the `Poll` operation): `avail` is the
byte sequence currently reported by `serial_port.in_waiting`; when it is
non-empty all of it is read in one call and processed, otherwise the method
returns at once without reading. -/
def update (st : SerialPipeline) (avail : List Nat) :
    Except SerialPipeline SerialPipeline :=
  if avail.length > 0 then updateBytes st avail else Except.ok st

/-- How many `serial_port.read` calls one `update` call performs for a given
available byte sequence: one inside the `in_buffer > 0` branch, none otherwise. -/
def readCalls (avail : List Nat) : Nat :=
  if avail.length > 0 then 1 else 0

/-- The lines printed to the console by the byte loop of one `update` call in
arrival order, each carrying the port name and the raw record bytes whose
UTF-8 decoding is printed.  A decode failure prints nothing for that record and
aborts the loop. -/
def consoleLinesBytes : SerialPipeline → List Nat → List (String × List Nat)
  | _, [] => []
  | st, b :: rest =>
    if b = st.delimeter then
      if st.verbose then
        if utf8Valid st.cache then
          (st.port_name, st.cache) :: consoleLinesBytes (step st b) rest
        else []
      else consoleLinesBytes (step st b) rest
    else consoleLinesBytes (step st b) rest

/-- The console output of one `update` call: empty when no bytes are waiting
(the `in_buffer > 0` branch is not taken). -/
def consoleLines (st : SerialPipeline) (avail : List Nat) : List (String × List Nat) :=
  if avail.length > 0 then consoleLinesBytes st avail else []

/-- A sequence of `update` calls, each fed the bytes available at that call;
an exception in one call propagates and stops the sequence. -/
def updateMany : SerialPipeline → List (List Nat) → Except SerialPipeline SerialPipeline
  | st, [] => Except.ok st
  | st, c :: cs =>
    match update st c with
    | Except.error e => Except.error e
    | Except.ok st2 => updateMany st2 cs

/-- Method `SerialPipeline.close`: closes the underlying serial port and touches
nothing else — in particular neither `cache` nor `lines`. -/
def close (st : SerialPipeline) : SerialPipeline :=
  { st with portOpen := false }

/-- The file name computed by `SerialPipeline.file_dump`:
`self.port_name + "_data.txt"`. -/
def dumpFileName (st : SerialPipeline) : String :=
  st.port_name ++ ("_data.txt")

/-- The `for line in self.lines: file.write(line)` loop of `file_dump`: the
bytes written to the file are the records concatenated with no separators. -/
def fileDumpBytes : List (List Nat) → List Nat
  | [] => []
  | line :: rest => line ++ fileDumpBytes rest

/-- The content of the file written by `SerialPipeline.file_dump`. -/
def file_dump (st : SerialPipeline) : List Nat :=
  fileDumpBytes st.lines

/-- The record list held by the pipeline object after an `update` run,
whether the run returned normally or raised. -/
def resultLines : Except SerialPipeline SerialPipeline → List (List Nat)
  | Except.ok st => st.lines
  | Except.error st => st.lines

/-- The longest suffix of `p` free of the byte `d`: the bytes received since
the most recent delimiter (all of `p` when `d` does not occur in it). -/
def suffixAfterLastDelim (d : Nat) (p : List Nat) : List Nat :=
  (p.reverse.takeWhile (fun b => b != d)).reverse

/-- An observable action of the shutdown path of `main`. -/
inductive ShutdownEvent where
  | closePort (port : String)
  | dumpPort (port : String) (file : String)
deriving DecidableEq

/-- The `for pipeline in pipelines: pipeline.close()` loop run on
`KeyboardInterrupt`. -/
def closeEvents : List SerialPipeline → List ShutdownEvent
  | [] => []
  | p :: ps => ShutdownEvent.closePort p.port_name :: closeEvents ps

/-- The `for pipeline in pipelines: ... pipeline.file_dump()` loop run when
`save_to_file` is set, each dump writing the file named by `file_dump`. -/
def dumpEvents : List SerialPipeline → List ShutdownEvent
  | [] => []
  | p :: ps => ShutdownEvent.dumpPort p.port_name (dumpFileName p) :: dumpEvents ps

/-- The shutdown path of `main` after the interrupt: first the close loop over
every pipeline, then — only if `save_to_file` was requested — the dump loop. -/
def shutdownTrace (ps : List SerialPipeline) (save_to_file : Bool) : List ShutdownEvent :=
  closeEvents ps ++ (if save_to_file then dumpEvents ps else [])

/-- The construction loop of `main`: one `SerialPipeline` per port name, in
list order; `openOk` says which port names `serial.Serial` can open, and a
failed open raises out of the loop, so construction of the remaining ports is
never attempted and no pipeline list is produced. -/
def buildPipelines (openOk : String → Bool) (baud_rate : Nat)
    (delimeter : List Nat) (verbose : Bool) :
    List String → Except String (List SerialPipeline)
  | [] => Except.ok []
  | name :: rest =>
    if openOk name then
      match buildPipelines openOk baud_rate delimeter verbose rest with
      | Except.ok ps => Except.ok (SerialPipeline.init name baud_rate delimeter verbose :: ps)
      | Except.error e => Except.error e
    else Except.error name

/-- The ports whose underlying connection the construction loop actually opens:
every port before the first failing one. -/
def openedPorts (openOk : String → Bool) : List String → List String
  | [] => []
  | name :: rest => if openOk name then name :: openedPorts openOk rest else []

@[simp]
lemma step_delimeter (st : SerialPipeline) (b : Nat) :
    (step st b).delimeter = st.delimeter := by
  unfold step; split <;> rfl

@[simp]
lemma step_verbose (st : SerialPipeline) (b : Nat) :
    (step st b).verbose = st.verbose := by
  unfold step; split <;> rfl

@[simp]
lemma step_port_name (st : SerialPipeline) (b : Nat) :
    (step st b).port_name = st.port_name := by
  unfold step; split <;> rfl

@[simp]
lemma intFromBytes_singleton (d : Nat) : intFromBytes [d] = d := by
  simp [intFromBytes]

/-- With `verbose` off the decode of the cache never happens, so the byte loop
never raises and is the plain fold of `step`. -/
lemma updateBytes_ok_of_not_verbose (st : SerialPipeline) (s : List Nat)
    (h : st.verbose = false) :
    updateBytes st s = Except.ok (List.foldl step st s) := by
  induction s generalizing st with
  | nil => rfl
  | cons b rest ih =>
    have hstep : stepE st b = Except.ok (step st b) := by
      unfold stepE
      rw [if_neg]
      intro hc
      rw [h] at hc
      exact Bool.false_ne_true hc.2.1
    simp only [updateBytes, hstep, List.foldl_cons]
    exact ih (step st b) (by simp [h])

/-- Processing a concatenation is processing the pieces in sequence. -/
lemma updateBytes_append (st : SerialPipeline) (a b : List Nat) :
    updateBytes st (a ++ b) = (updateBytes st a).bind (fun st2 => updateBytes st2 b) := by
  induction a generalizing st with
  | nil => simp [updateBytes, Except.bind]
  | cons x xs ih =>
    simp only [List.cons_append, updateBytes]
    cases stepE st x with
    | error e => simp [Except.bind]
    | ok st2 => exact ih st2

/-- The `in_buffer > 0` guard is immaterial to the resulting state: processing
an empty byte sequence is already the identity. -/
lemma update_eq_updateBytes (st : SerialPipeline) (avail : List Nat) :
    update st avail = updateBytes st avail := by
  cases avail with
  | nil => rfl
  | cons b rest => simp [update]

/-- Several `update` calls amount to one pass over the concatenated bytes. -/
lemma updateMany_flatten (st : SerialPipeline) (cs : List (List Nat)) :
    updateMany st cs = updateBytes st cs.flatten := by
  induction cs generalizing st with
  | nil => rfl
  | cons c cs ih =>
    simp only [updateMany, List.flatten_cons, updateBytes_append, update_eq_updateBytes]
    cases updateBytes st c with
    | error e => rfl
    | ok st2 => exact ih st2

@[simp]
lemma foldl_step_delimeter (st : SerialPipeline) (s : List Nat) :
    (List.foldl step st s).delimeter = st.delimeter := by
  induction s generalizing st with
  | nil => rfl
  | cons b rest ih => simp [List.foldl_cons, ih]

@[simp]
lemma foldl_step_verbose (st : SerialPipeline) (s : List Nat) :
    (List.foldl step st s).verbose = st.verbose := by
  induction s generalizing st with
  | nil => rfl
  | cons b rest ih => simp [List.foldl_cons, ih]

/-- Reconstruction invariant: interleaving the emitted records with the
delimiter and appending the cache recovers exactly the bytes fed so far. -/
lemma foldl_step_reconstruct (st : SerialPipeline) (s : List Nat) :
    ((List.foldl step st s).lines.map (fun r => r ++ [st.delimeter])).flatten
        ++ (List.foldl step st s).cache
      = (st.lines.map (fun r => r ++ [st.delimeter])).flatten ++ st.cache ++ s := by
  induction s using List.reverseRecOn with
  | nil => simp
  | append_singleton p b ih =>
    rw [List.foldl_append]
    simp only [List.foldl_cons, List.foldl_nil]
    by_cases hb : b = (List.foldl step st p).delimeter
    · have hbd : b = st.delimeter := by rw [hb, foldl_step_delimeter]
      simp only [step, if_pos hb]
      rw [hbd]
      simp only [List.map_append, List.map_cons, List.map_nil, List.flatten_append,
        List.flatten_cons, List.flatten_nil, List.append_nil]
      rw [← List.append_assoc, ih]
      simp [List.append_assoc]
    · simp only [step, if_neg hb]
      rw [← List.append_assoc, ih]
      simp [List.append_assoc]

/-- Record-count invariant: each delimiter occurrence emits exactly one record. -/
lemma foldl_step_count (st : SerialPipeline) (s : List Nat) :
    (List.foldl step st s).lines.length = st.lines.length + s.count st.delimeter := by
  induction s using List.reverseRecOn with
  | nil => simp
  | append_singleton p b ih =>
    rw [List.foldl_append]
    simp only [List.foldl_cons, List.foldl_nil]
    by_cases hb : b = (List.foldl step st p).delimeter
    · have hbd : b = st.delimeter := by rw [hb, foldl_step_delimeter]
      simp only [step, if_pos hb]
      simp [List.count_append, ih, hbd]
      omega
    · have hbd : ¬ b = st.delimeter := by rwa [foldl_step_delimeter] at hb
      simp only [step, if_neg hb]
      simp [List.count_append, ih, List.count_singleton, hbd]

/-- Delimiter-freedom invariant: if no emitted record and not the cache contain
the delimiter, the same holds after any further bytes. -/
lemma foldl_step_no_delim (st : SerialPipeline) (s : List Nat)
    (h1 : ∀ r ∈ st.lines, st.delimeter ∉ r) (h2 : st.delimeter ∉ st.cache) :
    (∀ r ∈ (List.foldl step st s).lines, st.delimeter ∉ r) ∧
      st.delimeter ∉ (List.foldl step st s).cache := by
  induction s using List.reverseRecOn with
  | nil => exact ⟨h1, h2⟩
  | append_singleton p b ih =>
    rw [List.foldl_append]
    simp only [List.foldl_cons, List.foldl_nil]
    by_cases hb : b = (List.foldl step st p).delimeter
    · simp only [step, if_pos hb]
      refine ⟨?_, by simp⟩
      intro r hr
      rcases List.mem_append.mp hr with hr | hr
      · exact ih.1 r hr
      · rw [List.mem_singleton.mp hr]
        exact ih.2
    · simp only [step, if_neg hb]
      refine ⟨ih.1, ?_⟩
      intro hmem
      rcases List.mem_append.mp hmem with hm | hm
      · exact ih.2 hm
      · have heq : st.delimeter = b := List.mem_singleton.mp hm
        exact hb (by rw [← heq, foldl_step_delimeter])

/-- Cache-content invariant: the cache is exactly the bytes since the most
recent delimiter, or the initial cache followed by all bytes when no delimiter
has occurred. -/
lemma foldl_step_cache (st : SerialPipeline) (s : List Nat) :
    (List.foldl step st s).cache =
      if st.delimeter ∈ s then suffixAfterLastDelim st.delimeter s
      else st.cache ++ s := by
  induction s using List.reverseRecOn with
  | nil => simp [suffixAfterLastDelim]
  | append_singleton p b ih =>
    rw [List.foldl_append]
    simp only [List.foldl_cons, List.foldl_nil]
    by_cases hb : b = (List.foldl step st p).delimeter
    · have hbd : b = st.delimeter := by rw [hb, foldl_step_delimeter]
      simp only [step, if_pos hb]
      rw [if_pos (by simp [hbd])]
      unfold suffixAfterLastDelim
      rw [List.reverse_append, List.reverse_singleton, List.singleton_append,
        List.takeWhile_cons]
      simp [hbd]
    · have hbd : ¬ b = st.delimeter := by rwa [foldl_step_delimeter] at hb
      simp only [step, if_neg hb]
      by_cases hd : st.delimeter ∈ p
      · rw [if_pos (by simp [hd])]
        rw [ih, if_pos hd]
        unfold suffixAfterLastDelim
        rw [List.reverse_append, List.reverse_singleton, List.singleton_append,
          List.takeWhile_cons]
        have : (b != st.delimeter) = true := by simpa using hbd
        rw [this]
        simp
      · have hcond : ¬ st.delimeter ∈ p ++ [b] := by
          simp only [List.mem_append, List.mem_singleton]
          rintro (h | h)
          · exact hd h
          · exact hbd h.symm
        rw [if_neg hcond, ih, if_neg hd]
        simp [List.append_assoc]

/-- When the byte does not occur, `suffixAfterLastDelim` is the whole list. -/
lemma suffixAfterLastDelim_of_not_mem (d : Nat) (s : List Nat) (h : d ∉ s) :
    suffixAfterLastDelim d s = s := by
  unfold suffixAfterLastDelim
  have : ∀ l : List Nat, (∀ b ∈ l, (b != d) = true) → l.takeWhile (fun b => b != d) = l := by
    intro l
    induction l with
    | nil => intro _; rfl
    | cons x xs ih =>
      intro hall
      rw [List.takeWhile_cons, if_pos (hall x (List.mem_cons_self x xs))]
      rw [ih (fun b hb => hall b (List.mem_cons_of_mem x hb))]
  rw [this s.reverse (by intro b hb; simp; intro hbd; rw [hbd] at hb; exact h (List.mem_reverse.mp hb))]
  exact List.reverse_reverse s

@[simp]
lemma close_lines (st : SerialPipeline) : (close st).lines = st.lines := rfl

@[simp]
lemma close_cache (st : SerialPipeline) : (close st).cache = st.cache := rfl

/-- The dump loop writes exactly the concatenation of the records. -/
lemma fileDumpBytes_eq_flatten (ls : List (List Nat)) :
    fileDumpBytes ls = ls.flatten := by
  induction ls with
  | nil => rfl
  | cons l rest ih => simp [fileDumpBytes, ih]

/-- Byte-conservation invariant: the concatenated records followed by the cache
are exactly the non-delimiter bytes fed so far, in order. -/
lemma foldl_step_flatten_filter (st : SerialPipeline) (s : List Nat) :
    (List.foldl step st s).lines.flatten ++ (List.foldl step st s).cache
      = st.lines.flatten ++ st.cache ++ s.filter (fun b => b != st.delimeter) := by
  induction s using List.reverseRecOn with
  | nil => simp
  | append_singleton p b ih =>
    rw [List.foldl_append]
    simp only [List.foldl_cons, List.foldl_nil]
    by_cases hb : b = (List.foldl step st p).delimeter
    · have hbd : b = st.delimeter := by rw [hb, foldl_step_delimeter]
      simp only [step, if_pos hb]
      have hf : List.filter (fun x => x != st.delimeter) (p ++ [b])
          = List.filter (fun x => x != st.delimeter) p := by
        simp [List.filter_append, hbd]
      rw [hf, ← ih]
      simp
    · have hbd : ¬ b = st.delimeter := by rwa [foldl_step_delimeter] at hb
      simp only [step, if_neg hb]
      have hf : List.filter (fun x => x != st.delimeter) (p ++ [b])
          = List.filter (fun x => x != st.delimeter) p ++ [b] := by
        simp [List.filter_append, hbd]
      rw [hf]
      conv_rhs => rw [← List.append_assoc, ← ih]
      simp [List.append_assoc]

/-- When no byte of the data equals the stored delimiter, the loop only grows
the cache: nothing is emitted, nothing raises. -/
lemma updateBytes_no_delim (st : SerialPipeline) (s : List Nat)
    (h : ∀ b ∈ s, ¬ b = st.delimeter) :
    updateBytes st s = Except.ok { st with cache := st.cache ++ s } := by
  induction s generalizing st with
  | nil => simp [updateBytes]
  | cons b rest ih =>
    have hb : ¬ b = st.delimeter := h b (List.mem_cons_self b rest)
    have hstep : stepE st b = Except.ok (step st b) := by
      unfold stepE
      rw [if_neg]
      intro hc
      exact hb hc.1
    simp only [updateBytes, hstep]
    rw [show step st b = { st with cache := st.cache ++ [b] } by simp [step, if_neg hb]]
    rw [ih _ (by intro x hx; exact h x (List.mem_cons_of_mem b hx))]
    simp [List.append_assoc]

/-- Python `int.from_bytes` splits on concatenation with a positional weight. -/
lemma intFromBytes_append (xs ys : List Nat) :
    intFromBytes (xs ++ ys) = intFromBytes xs + 256 ^ xs.length * intFromBytes ys := by
  induction xs with
  | nil => simp [intFromBytes]
  | cons x xs ih =>
    have h1 : intFromBytes ((x :: xs) ++ ys) = x + 256 * intFromBytes (xs ++ ys) := rfl
    have h2 : intFromBytes (x :: xs) = x + 256 * intFromBytes xs := rfl
    rw [h1, ih, h2, List.length_cons, pow_succ]
    ring

/-- A multi-byte delimiter whose most significant byte is non-zero is stored as
an integer of at least 256. -/
lemma intFromBytes_ge_256 (pre : List Nat) (lastB : Nat)
    (hpre : pre ≠ []) (hlast : lastB ≠ 0) :
    256 ≤ intFromBytes (pre ++ [lastB]) := by
  have hlen : 1 ≤ pre.length := List.length_pos.mpr hpre
  calc 256 = 256 ^ 1 := (pow_one 256).symm
    _ ≤ 256 ^ pre.length := Nat.pow_le_pow_right (by norm_num) hlen
    _ = 256 ^ pre.length * 1 := (mul_one _).symm
    _ ≤ 256 ^ pre.length * intFromBytes [lastB] := by
        apply Nat.mul_le_mul (Nat.le_refl _)
        simp [intFromBytes]
        omega
    _ ≤ intFromBytes pre + 256 ^ pre.length * intFromBytes [lastB] := Nat.le_add_left _ _
    _ = intFromBytes (pre ++ [lastB]) := (intFromBytes_append pre [lastB]).symm

/-- Claim C1, framing correctness: a byte sequence containing the delimiter
byte `d` exactly `k` times, fed to `Poll` across one or more calls (`cs` are
the per-call chunks), emits exactly `k` records; the records interleaved with
the delimiter followed by the final cache reconstruct the input, and no record
contains the delimiter — so each record is exactly the bytes strictly between
consecutive delimiters (or before the first), in order. -/
theorem framing_correctness (name : String) (baud d k : Nat)
    (s : List Nat) (cs : List (List Nat))
    (hcs : cs.flatten = s) (hk : s.count d = k) :
    updateMany (SerialPipeline.init name baud [d] false) cs =
        Except.ok (List.foldl step (SerialPipeline.init name baud [d] false) s) ∧
    (List.foldl step (SerialPipeline.init name baud [d] false) s).lines.length = k ∧
    (∀ r ∈ (List.foldl step (SerialPipeline.init name baud [d] false) s).lines, d ∉ r) ∧
    ((List.foldl step (SerialPipeline.init name baud [d] false) s).lines.map
        (fun r => r ++ [d])).flatten
      ++ (List.foldl step (SerialPipeline.init name baud [d] false) s).cache = s := by
  set st0 := SerialPipeline.init name baud [d] false with hst0
  have hdel : st0.delimeter = d := by simp [hst0, SerialPipeline.init]
  have hver : st0.verbose = false := rfl
  have hlines : st0.lines = [] := rfl
  have hcache : st0.cache = [] := rfl
  refine ⟨?_, ?_, ?_, ?_⟩
  · rw [updateMany_flatten, hcs, updateBytes_ok_of_not_verbose st0 s hver]
  · have hcount := foldl_step_count st0 s
    rw [hdel, hlines, hk] at hcount
    simpa using hcount
  · have hnd := foldl_step_no_delim st0 s
      (by rw [hlines]; intro r hr; cases hr) (by rw [hcache]; exact List.not_mem_nil _)
    rw [hdel] at hnd
    exact hnd.1
  · have hrec := foldl_step_reconstruct st0 s
    rw [hdel, hlines, hcache] at hrec
    simpa using hrec

/-- Claim C1 witness: the scenario of b"AB\nCD\n" with delimiter `0x0A` split
across two polls. -/
theorem framing_correctness_witness :
    updateMany (SerialPipeline.init ("COM1") 115200 [10] false) [[65, 66, 10], [67, 68, 10]] =
        Except.ok (List.foldl step (SerialPipeline.init ("COM1") 115200 [10] false)
          [65, 66, 10, 67, 68, 10]) ∧
    (List.foldl step (SerialPipeline.init ("COM1") 115200 [10] false)
        [65, 66, 10, 67, 68, 10]).lines.length = 2 ∧
    (∀ r ∈ (List.foldl step (SerialPipeline.init ("COM1") 115200 [10] false)
        [65, 66, 10, 67, 68, 10]).lines, 10 ∉ r) ∧
    ((List.foldl step (SerialPipeline.init ("COM1") 115200 [10] false)
        [65, 66, 10, 67, 68, 10]).lines.map (fun r => r ++ [10])).flatten
      ++ (List.foldl step (SerialPipeline.init ("COM1") 115200 [10] false)
        [65, 66, 10, 67, 68, 10]).cache = [65, 66, 10, 67, 68, 10] :=
  framing_correctness ("COM1") 115200 10 2 [65, 66, 10, 67, 68, 10]
    [[65, 66, 10], [67, 68, 10]] (by decide) (by decide)

/-- Claim C2, split-read invariance: feeding the chunks of any partition of a
byte sequence across successive `Poll` calls ends in exactly the same pipeline
state — record list and cache included — as feeding the whole sequence to one
`Poll` call, from any starting state. -/
theorem split_read_invariance (st : SerialPipeline) (cs : List (List Nat)) :
    updateMany st cs = update st cs.flatten := by
  rw [update_eq_updateBytes]
  exact updateMany_flatten st cs

/-- Claim C3 counterexample: input b"XY" (no delimiter) leaves both records in
the cache, so `Dump` writes an empty file while the input with delimiters
removed is b"XY" itself — the round-trip fails on any input that does not end
with a delimiter. -/
theorem dump_roundtrip_counterexample :
    updateBytes (SerialPipeline.init ("COM1") 115200 [10] false) [88, 89] =
      Except.ok { port_name := "COM1", baud_rate := 115200, delimeter := 10,
                  verbose := false, cache := [88, 89], lines := [], portOpen := true } ∧
    file_dump { port_name := "COM1", baud_rate := 115200, delimeter := 10,
                verbose := false, cache := [88, 89], lines := [], portOpen := true } = [] ∧
    List.filter (fun b => b != 10) [88, 89] = [88, 89] ∧
    ([] : List Nat) ≠ [88, 89] :=
  ⟨rfl, rfl, rfl, by decide⟩

/-- Claim C3 as amended: the bytes written by `Dump` followed by the final
cache contents equal the original input with every delimiter byte removed, no
byte reordered or duplicated (the original claim omitted the trailing partial
record, which stays in the cache and is never written). -/
theorem dump_roundtrip_amended (name : String) (baud d : Nat) (s : List Nat) :
    updateBytes (SerialPipeline.init name baud [d] false) s =
        Except.ok (List.foldl step (SerialPipeline.init name baud [d] false) s) ∧
    file_dump (List.foldl step (SerialPipeline.init name baud [d] false) s)
        ++ (List.foldl step (SerialPipeline.init name baud [d] false) s).cache
      = s.filter (fun b => b != d) := by
  set st0 := SerialPipeline.init name baud [d] false with hst0
  have hdel : st0.delimeter = d := by simp [hst0, SerialPipeline.init]
  refine ⟨updateBytes_ok_of_not_verbose st0 s rfl, ?_⟩
  have hff := foldl_step_flatten_filter st0 s
  rw [hdel, show st0.lines = [] from rfl, show st0.cache = [] from rfl] at hff
  unfold file_dump
  rw [fileDumpBytes_eq_flatten]
  simpa using hff

/-- Claim C4, cache invariant: after processing any prefix `p` of the input
from a fresh pipeline, the cache never contains the delimiter byte, is empty
immediately after any delimiter byte is processed, and equals the suffix of the
processed bytes since the most recent delimiter (the whole prefix when no
delimiter occurred); no emitted record contains the delimiter, and each record
is captured as a value at emission time (the `bytes(self.cache)` copy),
modelled by the immutable list entries of `lines`. -/
theorem cache_invariant (name : String) (baud d : Nat) (s p : List Nat)
    (hp : p <+: s) :
    updateBytes (SerialPipeline.init name baud [d] false) p =
        Except.ok (List.foldl step (SerialPipeline.init name baud [d] false) p) ∧
    d ∉ (List.foldl step (SerialPipeline.init name baud [d] false) p).cache ∧
    (∀ q, p = q ++ [d] →
      (List.foldl step (SerialPipeline.init name baud [d] false) p).cache = []) ∧
    (List.foldl step (SerialPipeline.init name baud [d] false) p).cache
        = suffixAfterLastDelim d p ∧
    (∀ r ∈ (List.foldl step (SerialPipeline.init name baud [d] false) p).lines, d ∉ r) := by
  have hsub := hp.sublist
  set st0 := SerialPipeline.init name baud [d] false with hst0
  have hdel : st0.delimeter = d := by simp [hst0, SerialPipeline.init]
  have hnd := foldl_step_no_delim st0 p
    (by intro r hr; cases hr) (List.not_mem_nil _)
  rw [hdel] at hnd
  have hcache : (List.foldl step st0 p).cache = suffixAfterLastDelim d p := by
    have h := foldl_step_cache st0 p
    rw [hdel, show st0.cache = [] from rfl] at h
    by_cases hmem : d ∈ p
    · rw [h, if_pos hmem]
    · rw [h, if_neg hmem, suffixAfterLastDelim_of_not_mem d p hmem]
      rfl
  refine ⟨updateBytes_ok_of_not_verbose st0 p rfl, hnd.2, ?_, hcache, hnd.1⟩
  intro q hq
  rw [hcache, hq]
  unfold suffixAfterLastDelim
  rw [List.reverse_append, List.reverse_singleton, List.singleton_append,
    List.takeWhile_cons]
  simp

/-- Claim C4 witness: the prefix b"AB\n" of b"AB\nC" leaves an empty cache and
the single record b"AB". -/
theorem cache_invariant_witness :
    updateBytes (SerialPipeline.init ("COM1") 115200 [10] false) [65, 66, 10] =
        Except.ok (List.foldl step (SerialPipeline.init ("COM1") 115200 [10] false)
          [65, 66, 10]) ∧
    10 ∉ (List.foldl step (SerialPipeline.init ("COM1") 115200 [10] false)
        [65, 66, 10]).cache ∧
    (∀ q, [65, 66, 10] = q ++ [10] →
      (List.foldl step (SerialPipeline.init ("COM1") 115200 [10] false)
        [65, 66, 10]).cache = []) ∧
    (List.foldl step (SerialPipeline.init ("COM1") 115200 [10] false)
        [65, 66, 10]).cache = suffixAfterLastDelim 10 [65, 66, 10] ∧
    (∀ r ∈ (List.foldl step (SerialPipeline.init ("COM1") 115200 [10] false)
        [65, 66, 10]).lines, 10 ∉ r) :=
  cache_invariant ("COM1") 115200 10 [65, 66, 10, 67] [65, 66, 10] ⟨[67], rfl⟩

/-- Claim C5, partial record discarded at shutdown: input containing no
delimiter byte emits no record; after `Close` the record list is still empty
and the cache is untouched (never flushed), and `Dump` writes an empty file
without failing. -/
theorem partial_record_discarded (name : String) (baud : Nat) (db : List Nat)
    (s : List Nat) (h : ∀ b ∈ s, ¬ b = intFromBytes db) :
    updateBytes (SerialPipeline.init name baud db false) s =
        Except.ok { SerialPipeline.init name baud db false with cache := s } ∧
    ({ SerialPipeline.init name baud db false with cache := s }).lines = [] ∧
    (close { SerialPipeline.init name baud db false with cache := s }).lines = [] ∧
    (close { SerialPipeline.init name baud db false with cache := s }).cache = s ∧
    file_dump (close { SerialPipeline.init name baud db false with cache := s }) = [] := by
  refine ⟨?_, rfl, rfl, rfl, rfl⟩
  have hh : ∀ b ∈ s, ¬ b = (SerialPipeline.init name baud db false).delimeter := by
    intro b hb
    simpa [SerialPipeline.init] using h b hb
  exact updateBytes_no_delim (SerialPipeline.init name baud db false) s hh

/-- Claim C5 witness: the scenario of b"XY" with delimiter `0x0A`. -/
theorem partial_record_discarded_witness :
    updateBytes (SerialPipeline.init ("COM1") 115200 [10] false) [88, 89] =
        Except.ok { SerialPipeline.init ("COM1") 115200 [10] false with cache := [88, 89] } ∧
    ({ SerialPipeline.init ("COM1") 115200 [10] false with cache := [88, 89] }).lines = [] ∧
    (close { SerialPipeline.init ("COM1") 115200 [10] false with cache := [88, 89] }).lines
        = [] ∧
    (close { SerialPipeline.init ("COM1") 115200 [10] false with cache := [88, 89] }).cache
        = [88, 89] ∧
    file_dump (close { SerialPipeline.init ("COM1") 115200 [10] false with cache := [88, 89] })
        = [] :=
  partial_record_discarded ("COM1") 115200 [10] [88, 89] (by decide)

/-- Claim C6, empty poll is a no-op: with zero bytes available, `Poll` leaves
the pipeline state unchanged (and raises nothing), performs no `read` call and
prints nothing. -/
theorem empty_poll_noop (st : SerialPipeline) :
    update st [] = Except.ok st ∧ readCalls [] = 0 ∧ consoleLines st [] = [] :=
  ⟨rfl, rfl, rfl⟩

/-- Claim C7, shutdown sequence: on the interrupt the driver closes every
pipeline in list order; all closes precede all dumps; only when `save_to_file`
was requested does it then dump every pipeline in list order, each to the file
named by the port identifier plus the fixed suffix; otherwise no dump occurs. -/
theorem shutdown_sequence (ps : List SerialPipeline) (save_to_file : Bool) :
    shutdownTrace ps save_to_file =
      ps.map (fun p => ShutdownEvent.closePort p.port_name) ++
        (if save_to_file then
          ps.map (fun p => ShutdownEvent.dumpPort p.port_name (p.port_name ++ ("_data.txt")))
        else []) := by
  have hc : ∀ l : List SerialPipeline,
      closeEvents l = l.map (fun p => ShutdownEvent.closePort p.port_name) := by
    intro l
    induction l with
    | nil => rfl
    | cons p l ih => simp [closeEvents, ih]
  have hd : ∀ l : List SerialPipeline,
      dumpEvents l
        = l.map (fun p => ShutdownEvent.dumpPort p.port_name (p.port_name ++ ("_data.txt"))) := by
    intro l
    induction l with
    | nil => rfl
    | cons p l ih => simp [dumpEvents, dumpFileName, ih]
  unfold shutdownTrace
  rw [hc, hd]

/-- Claim C8, fatal startup error: when a port in the list fails to open, the
construction loop raises that port's failure at once — no pipeline list is
produced — and the ports after the failing one are never opened. -/
theorem fatal_startup_error (openOk : String → Bool) (baud : Nat) (db : List Nat)
    (v : Bool) (pre post : List String) (bad : String)
    (hpre : ∀ p ∈ pre, openOk p = true) (hbad : openOk bad = false) :
    buildPipelines openOk baud db v (pre ++ bad :: post) = Except.error bad ∧
    openedPorts openOk (pre ++ bad :: post) = pre := by
  induction pre with
  | nil => simp [buildPipelines, openedPorts, hbad]
  | cons name pre ih =>
    have hname : openOk name = true := hpre name (List.mem_cons_self name pre)
    have hrest : ∀ p ∈ pre, openOk p = true :=
      fun p hp => hpre p (List.mem_cons_of_mem name hp)
    obtain ⟨h1, h2⟩ := ih hrest
    constructor
    · simp [List.cons_append, buildPipelines, hname, h1]
    · simp [List.cons_append, openedPorts, hname, h2]

/-- Claim C8 witness: of the ports COM1, COM2, COM3 only COM1 opens; the
failure on COM2 propagates and COM3 is never attempted. -/
theorem fatal_startup_error_witness :
    buildPipelines (fun s => s == "COM1") 115200 [10] false
        (["COM1"] ++ "COM2" :: ["COM3"]) = Except.error ("COM2") ∧
    openedPorts (fun s => s == "COM1") (["COM1"] ++ "COM2" :: ["COM3"]) = ["COM1"] :=
  fatal_startup_error (fun s => s == "COM1") 115200 [10] false
    ["COM1"] ["COM3"] ("COM2") (by decide) (by decide)

/-- Claim C9 counterexample: the two-byte delimiter `b"\x0a\x00"` is stored as
`int.from_bytes(b"\x0a\x00", "little") = 10`, which IS a byte value, so `Poll`
does emit a record on the byte `0x0a` — the claimed bound of 256 fails for a
multi-byte delimiter whose most significant byte is zero. -/
theorem multibyte_delimiter_counterexample :
    List.length [10, 0] > 1 ∧
    intFromBytes [10, 0] = 10 ∧
    resultLines (updateBytes (SerialPipeline.init ("COM1") 115200 [10, 0] false) [65, 10])
      = [[65]] ∧
    [[65]] ≠ ([] : List (List Nat)) :=
  ⟨by decide, rfl, rfl, by decide⟩

/-- Claim C9 as amended: if the delimiter bytes have length greater than one
AND their last (most significant) byte is non-zero — true of every multi-byte
UTF-8 character, whose trailing bytes lie in `0x80..0xBF` — then the stored
integer is at least 256, no received byte (0..255) ever equals it, `Poll`
never emits a record and every byte accumulates in the cache. -/
theorem multibyte_delimiter_amended (name : String) (baud : Nat) (pre : List Nat)
    (lastB : Nat) (v : Bool) (s : List Nat)
    (hpre : pre ≠ []) (hlast : lastB ≠ 0) (hs : ∀ b ∈ s, b < 256) :
    256 ≤ (SerialPipeline.init name baud (pre ++ [lastB]) v).delimeter ∧
    updateBytes (SerialPipeline.init name baud (pre ++ [lastB]) v) s =
      Except.ok { SerialPipeline.init name baud (pre ++ [lastB]) v with cache := s } ∧
    ({ SerialPipeline.init name baud (pre ++ [lastB]) v with cache := s }).lines = [] := by
  have hd : 256 ≤ (SerialPipeline.init name baud (pre ++ [lastB]) v).delimeter := by
    simpa [SerialPipeline.init] using intFromBytes_ge_256 pre lastB hpre hlast
  refine ⟨hd, ?_, rfl⟩
  exact updateBytes_no_delim (SerialPipeline.init name baud (pre ++ [lastB]) v) s (by
    intro b hb heq
    have hlt := hs b hb
    rw [heq] at hlt
    omega)

/-- Claim C9 witness: the delimiter b"\xc2\xa3" (UTF-8 for the pound sign) is
stored as an integer of at least 256 and never matches any received byte. -/
theorem multibyte_delimiter_amended_witness :
    256 ≤ (SerialPipeline.init ("COM1") 115200 ([194] ++ [163]) false).delimeter ∧
    updateBytes (SerialPipeline.init ("COM1") 115200 ([194] ++ [163]) false) [65, 10] =
      Except.ok { SerialPipeline.init ("COM1") 115200 ([194] ++ [163]) false
                    with cache := [65, 10] } ∧
    ({ SerialPipeline.init ("COM1") 115200 ([194] ++ [163]) false
        with cache := [65, 10] }).lines = [] :=
  multibyte_delimiter_amended ("COM1") 115200 [194] 163 false [65, 10]
    (by decide) (by decide) (by decide)

/-- Claim C10, verbose decode failure loses the record atomically: when the
next byte is the delimiter, `Poll` either raises — exactly when `verbose` is
set and the cache is not valid UTF-8, because the decode for the console print
runs before the append — leaving the record unappended and the cache intact
(the error value is the unchanged state), or appends the record and resets the
cache before processing the remaining bytes; with `verbose` off the record is
appended with no decode, whatever its bytes. -/
theorem verbose_decode_failure_atomic (st : SerialPipeline) (rest : List Nat) :
    update st (st.delimeter :: rest) =
      if st.verbose = true ∧ utf8Valid st.cache = false then Except.error st
      else updateBytes { st with lines := st.lines ++ [st.cache], cache := [] } rest := by
  rw [update_eq_updateBytes]
  by_cases h : st.verbose = true ∧ utf8Valid st.cache = false
  · rw [if_pos h]
    have hse : stepE st st.delimeter = Except.error st := by
      unfold stepE
      exact if_pos ⟨rfl, h.1, h.2⟩
    simp only [updateBytes, hse]
  · rw [if_neg h]
    have hstep : stepE st st.delimeter = Except.ok (step st st.delimeter) := by
      unfold stepE
      rw [if_neg]
      intro hc
      exact h ⟨hc.2.1, hc.2.2⟩
    simp only [updateBytes, hstep]
    rw [show step st st.delimeter
        = { st with lines := st.lines ++ [st.cache], cache := [] } by simp [step]]

end SerialMonitor
